import Mathlib

/-!
Shallow embedding of the walnut path-tracing renderer (Rust) in Lean 4.

Rust `f32` scalars are modelled as real numbers; `f32::sqrt`, `f32::tan`,
`f32::cos`, `f32::sin` and `f32::powf` become `Real.sqrt`, `Real.tan`,
`Real.cos`, `Real.sin` and real `rpow`.  Fallible operations return
`Option`.  The thread-local random number generator is modelled as an
infinite stream `ℕ → ℝ` of uniform draws together with a cursor that the
integrator advances exactly where the Rust code calls `rng.gen()`.
-/

namespace Walnut

noncomputable section

/-- Model of `Point` from `src/math.rs`: an affine position with three scalar
coordinates. -/
structure Point where
  x : ℝ
  y : ℝ
  z : ℝ
deriving DecidableEq

/-- Model of `Vector` from `src/math.rs`: a displacement with three scalar
coordinates (named `Vec` to avoid clashing with the Lean core vector). -/
structure Vec where
  x : ℝ
  y : ℝ
  z : ℝ
deriving DecidableEq

/-- Model of `Ray` from `src/math.rs`: an origin point and a (not necessarily
normalized) direction vector. -/
structure Ray where
  origin : Point
  direction : Vec

/-- Model of `impl Add<Vector> for Vector` from `src/math.rs`. -/
instance : Add Vec where
  add a b := ⟨a.x + b.x, a.y + b.y, a.z + b.z⟩

/-- Model of `impl Sub for Vector` from `src/math.rs`. -/
instance : Sub Vec where
  sub a b := ⟨a.x - b.x, a.y - b.y, a.z - b.z⟩

/-- Model of `impl Neg for Vector` from `src/math.rs`. -/
instance : Neg Vec where
  neg a := ⟨-a.x, -a.y, -a.z⟩

/-- Model of `impl Mul<Vector> for f32` from `src/math.rs`: scalar times vector. -/
instance : HMul ℝ Vec Vec where
  hMul s v := ⟨s * v.x, s * v.y, s * v.z⟩

/-- Model of `impl Add<Vector> for Point` from `src/math.rs`. -/
instance : HAdd Point Vec Point where
  hAdd p v := ⟨p.x + v.x, p.y + v.y, p.z + v.z⟩

/-- Model of `impl Sub<Point> for Point` from `src/math.rs`: point minus point is a
vector. -/
instance : HSub Point Point Vec where
  hSub p q := ⟨p.x - q.x, p.y - q.y, p.z - q.z⟩

/-- Model of `Vector::normalize` from `src/math.rs`: divide each component by the
Euclidean length. -/
def Vec.normalize (v : Vec) : Vec :=
  let length := Real.sqrt (v.x * v.x + v.y * v.y + v.z * v.z)
  ⟨v.x / length, v.y / length, v.z / length⟩

/-- Model of `dot` from `src/math.rs`. -/
def dot (a b : Vec) : ℝ :=
  a.x * b.x + a.y * b.y + a.z * b.z

/-- Model of `norm2` from `src/math.rs`: squared Euclidean length. -/
def norm2 (a : Vec) : ℝ := dot a a

/-- Model of `reflect` from `src/math.rs`: `a − 2·(a·n)·n`. -/
def reflect (a n : Vec) : Vec :=
  a - (2 * dot a n) * n

/-- Model of `cross` from `src/math.rs`: right-handed cross product. -/
def cross (a b : Vec) : Vec :=
  ⟨a.y * b.z - a.z * b.y, a.z * b.x - a.x * b.z, a.x * b.y - a.y * b.x⟩

/-- Model of `Color` from `src/sensor.rs`: three scalar channels in linear radiance
units. -/
structure Color where
  r : ℝ
  g : ℝ
  b : ℝ
deriving DecidableEq

/-- Model of `Color::new` from `src/sensor.rs`. -/
def Color.new (r g b : ℝ) : Color := ⟨r, g, b⟩

/-- Model of `impl Add for Color` from `src/sensor.rs`. -/
instance : Add Color where
  add a b := ⟨a.r + b.r, a.g + b.g, a.b + b.b⟩

/-- Model of `impl Mul<Color> for f32` from `src/sensor.rs`: scalar times color. -/
instance : HMul ℝ Color Color where
  hMul s c := ⟨s * c.r, s * c.g, s * c.b⟩

/-- Model of `impl Mul<Color> for Color` from `src/sensor.rs`: componentwise
product. -/
instance : Mul Color where
  mul a b := ⟨a.r * b.r, a.g * b.g, a.b * b.b⟩

/-- Model of `Color::clamp` from `src/sensor.rs`: clamp each channel to `[0,1]`
(`f32::clamp(x, 0.0, 1.0)` is `min 1 (max 0 x)` on the reals). -/
def Color.clamp (c : Color) : Color :=
  ⟨min 1 (max 0 c.r), min 1 (max 0 c.g), min 1 (max 0 c.b)⟩

/-- Truncation toward zero of a real number, the rounding used by a Rust
float-to-integer `as` cast. -/
def truncToZero (x : ℝ) : ℤ :=
  if 0 ≤ x then ⌊x⌋ else ⌈x⌉

/-- The Rust cast `x as u8` for an `f32` `x`: truncate toward zero, then
saturate into `[0, 255]` (NaN, which maps to 0 in Rust, has no counterpart
in the real-number model). -/
def castF32U8 (x : ℝ) : ℤ :=
  max 0 (min 255 (truncToZero x))

/-- Model of `Color::to_bytes` from `src/sensor.rs`: each channel is multiplied by
255 and cast `as u8`; no clamping happens before the cast. -/
def Color.to_bytes (c : Color) : ℤ × ℤ × ℤ :=
  (castF32U8 (c.r * 255), castF32U8 (c.g * 255), castF32U8 (c.b * 255))

/-- Quantization of one channel as the spec's words describe it:
`byte = (clamp01(c) · 255)` truncated toward zero. -/
def specQuantChannel (x : ℝ) : ℤ :=
  truncToZero (min 1 (max 0 x) * 255)

/-- Model of `EmitterSample` from `src/emitter.rs`. -/
structure EmitterSample where
  radiance : Color
  position : Point
  weight : ℝ

/-- The emitter variant set from `src/emitter.rs` (only `PointLight`). -/
inductive Emitter where
  | pointLight (position : Point) (intensity : Color)

/-- Model of `PointLight::sample` from `src/emitter.rs`: the sample is the light's
position and intensity with weight 1. -/
def Emitter.sample : Emitter → EmitterSample
  | .pointLight p i => ⟨i, p, 1⟩

/-- The material variant set from `src/material.rs`. -/
inductive Material where
  | blackBody
  | diffuse (albedo : Color)
  | phong (albedo specular : Color) (exponent : ℝ)
deriving DecidableEq

/-- Model of `SurfaceInteraction` from `src/scene.rs`.  The Rust reference to the
hit shape's boxed material is modelled by the material value itself. -/
structure SurfaceInteraction where
  position : Point
  normal : Vec
  t : ℝ
  material : Material
  wi : Vec
  emitter : Option Emitter

/-- Model of `SurfaceInteraction::local_frame` from `src/scene.rs`: an orthonormal
basis `(u, v, w)` with `w` the surface normal. -/
def SurfaceInteraction.local_frame (si : SurfaceInteraction) : Vec × Vec × Vec :=
  let w := si.normal
  let axis : Vec := if |w.x| > 0.1 then ⟨0, 1, 0⟩ else ⟨1, 0, 0⟩
  let u := (cross axis w).normalize
  let v := cross w u
  (u, v, w)

/-- Model of `uniform_hemisphere_sample` from `src/material.rs`, with the two
`rng.gen()` draws passed in as `e1`, `e2`. -/
def uniform_hemisphere_sample (si : SurfaceInteraction) (e1 e2 : ℝ) : Vec :=
  let f := si.local_frame
  let r := Real.sqrt (1 - e1 * e1)
  let phi := 2 * Real.pi * e2
  (Real.cos phi * r) * f.1 + (Real.sin phi * r) * f.2.1 + e1 * f.2.2

/-- Model of `cosine_weighted_hemisphere_sample` from `src/material.rs`, with the
two `rng.gen()` draws passed in as `e1`, `e2`. -/
def cosine_weighted_hemisphere_sample (si : SurfaceInteraction) (e1 e2 : ℝ) : Vec :=
  let f := si.local_frame
  let r := Real.sqrt e1
  let phi := 2 * Real.pi * e2
  (Real.cos phi * r) * f.1 + (Real.sin phi * r) * f.2.1
    + Real.sqrt (max 0 (1 - e1)) * f.2.2

/-- Model of `BsdfSample` from `src/material.rs`. -/
structure BsdfSample where
  radiance : Color
  pdf : ℝ

/-- Model of `bsdf_pdf` for each material variant, from `src/material.rs`. -/
def Material.bsdf_pdf (m : Material) (si : SurfaceInteraction) (wo : Vec) : ℝ :=
  match m with
  | .blackBody => dot si.normal wo / Real.pi
  | .diffuse _ => dot si.normal wo / Real.pi
  | .phong _ _ _ => 1 / (2 * Real.pi)

/-- Model of `bsdf_eval` for each material variant, from `src/material.rs`. -/
def Material.bsdf_eval (m : Material) (si : SurfaceInteraction) (wo : Vec) : BsdfSample :=
  match m with
  | .blackBody => ⟨Color.new 0 0 0, m.bsdf_pdf si wo⟩
  | .diffuse albedo =>
      ⟨(1 / Real.pi * max (dot si.normal wo) 0) * albedo, m.bsdf_pdf si wo⟩
  | .phong albedo specular exponent =>
      let n := si.normal
      let r_v := -reflect si.wi n
      let diffuse := (1 / Real.pi * max (dot n wo) 0) * albedo
      let specular := max (dot r_v wo) 0 ^ exponent * specular
      ⟨diffuse + specular, m.bsdf_pdf si wo⟩

/-- Model of `bsdf_sample` for each material variant, from `src/material.rs`:
`BlackBody` and `DiffuseMaterial` sample the cosine-weighted hemisphere,
`PhongMaterial` the uniform hemisphere; each consumes two draws. -/
def Material.bsdf_sample (m : Material) (si : SurfaceInteraction) (e1 e2 : ℝ) : Vec :=
  match m with
  | .blackBody => cosine_weighted_hemisphere_sample si e1 e2
  | .diffuse _ => cosine_weighted_hemisphere_sample si e1 e2
  | .phong _ _ _ => uniform_hemisphere_sample si e1 e2

/-- The shape variant set from `src/scene.rs`: `Sphere` and
`InfinitePlane`, each carrying its material. -/
inductive Shape where
  | sphere (center : Point) (radius : ℝ) (material : Material)
  | plane (center : Point) (normal : Vec) (material : Material)

/-- Model of `Shape::intersect` from `src/scene.rs` for both variants.

Sphere: with `o` the origin, `u` the normalized direction, compute
`discriminant = (u·(o−c))² − (‖o−c‖² − r²)`; miss if it is negative;
`t = −u·(o−c) − √discriminant`; miss if `t < 0`; otherwise return the hit
record.

Plane: `denom = u·n`; miss if `denom > −1e-6`; `t = ((c−o)·n)/denom`;
miss if `t < 0`; otherwise return the hit record. -/
def Shape.intersect (sh : Shape) (ray : Ray) : Option SurfaceInteraction :=
  match sh with
  | .sphere c r material =>
      let o := ray.origin
      let u := ray.direction.normalize
      let discriminant := dot u (o - c) ^ 2 - (norm2 (o - c) - r * r)
      if discriminant < 0 then none
      else
        let t := -dot u (o - c) - Real.sqrt discriminant
        if t < 0 then none
        else
          let intersection := o + t * u
          some ⟨intersection, (intersection - c).normalize, t, material, -u, none⟩
  | .plane c n material =>
      let o := ray.origin
      let u := ray.direction.normalize
      let denom := dot u n
      if denom > -1e-6 then none
      else
        let t := dot (c - o) n / denom
        if t < 0 then none
        else some ⟨o + t * u, n, t, material, -u, none⟩

/-- Model of `Scene` from `src/scene.rs`. -/
structure Scene where
  shapes : List Shape
  lights : List Emitter
  background_color : Color

/-- One step of the fold behind Rust's `Iterator::min_by` on the hit list:
the accumulator is kept unless the new element's `t` is strictly smaller
(`min_by` returns the first of equally minimal elements). -/
def minByStep (acc x : SurfaceInteraction) : SurfaceInteraction :=
  if x.t < acc.t then x else acc

/-- Rust's `min_by` over `t` on a nonempty list, seeded with the first
element. -/
def minBy1 (a : SurfaceInteraction) : List SurfaceInteraction → SurfaceInteraction
  | [] => a
  | x :: xs => minBy1 (minByStep a x) xs

/-- Rust's `Iterator::min_by` over `t` (`None` on an empty list). -/
def minByFirst : List SurfaceInteraction → Option SurfaceInteraction
  | [] => none
  | x :: xs => some (minBy1 x xs)

/-- Model of `Scene::closest_hit` from `src/scene.rs`: intersect every shape in
insertion order, keep the hit of minimal `t` (`min_by` over
`partial_cmp`), and rebuild the record with `emitter := none`. -/
def Scene.closest_hit (scene : Scene) (ray : Ray) : Option SurfaceInteraction :=
  (minByFirst (scene.shapes.filterMap (fun sh => sh.intersect ray))).map
    (fun closest =>
      ⟨closest.position, closest.normal, closest.t, closest.material,
        closest.wi, none⟩)

/-- Model of `Sensor` from `src/sensor.rs`, reduced to its dimensions (the pixel
accumulators play no role in the claims about `sample_ray`). -/
structure Sensor where
  width : ℕ
  height : ℕ

/-- Model of `Sensor::inside` from `src/sensor.rs`: `i < width && j < height`. -/
def Sensor.inside (s : Sensor) (i j : ℕ) : Prop :=
  i < s.width ∧ j < s.height

instance (s : Sensor) (i j : ℕ) : Decidable (s.inside i j) :=
  inferInstanceAs (Decidable (_ ∧ _))

/-- Model of `Sensor::aspect` from `src/sensor.rs`: `width as f32 / height as f32`. -/
def Sensor.aspect (s : Sensor) : ℝ :=
  (s.width : ℝ) / (s.height : ℝ)

/-- Model of `PinholeCamera` from `src/sensor.rs`: the stored `fov` is already in
radians and the camera position is the origin. -/
structure PinholeCamera where
  sensor : Sensor
  fov : ℝ
  position : Point

/-- Model of `PinholeCamera::new` from `src/sensor.rs`: converts the field of view
from degrees to radians (`f32::to_radians` is multiplication by π/180). -/
def PinholeCamera.new (sensor : Sensor) (fov : ℝ) : PinholeCamera :=
  ⟨sensor, fov * (Real.pi / 180), ⟨0, 0, 0⟩⟩

/-- Model of `PinholeCamera::sample_ray` from `src/sensor.rs`, with the two
`rng.gen()` jitter draws passed in as `ξ1`, `ξ2`.  Outside the sensor it
returns `none`; inside it maps the jittered pixel coordinate to screen
space and returns the ray from the origin through it. -/
def PinholeCamera.sample_ray (cam : PinholeCamera) (i j : ℕ) (ξ1 ξ2 : ℝ) : Option Ray :=
  if ¬ cam.sensor.inside i j then none
  else
    let aspect_ratio := cam.sensor.aspect
    let u := ((i : ℝ) + ξ1) / ((cam.sensor.width : ℝ) + 1)
    let v := ((j : ℝ) + ξ2) / ((cam.sensor.height : ℝ) + 1)
    let u2 := (2 * u - 1) * aspect_ratio * Real.tan (cam.fov / 2)
    let v2 := (1 - 2 * v) * Real.tan (cam.fov / 2)
    some ⟨⟨0, 0, 0⟩, Vec.normalize ⟨u2, v2, -1⟩⟩

/-- Model of `PathIntegrator` from `src/integrator.rs`. -/
structure PathIntegrator where
  max_bounce : ℕ
  russian_roulette : ℕ

/-- The direct-lighting (next-event estimation) accumulation from the
light loop of `PathIntegrator::sample_radiance` (`src/integrator.rs`,
lines 45–58): for each light, aim at its sampled position, skip it when
the shadow ray hits anything, otherwise add BSDF radiance times light
radiance.  No random draw is consumed. -/
def directLe (scene : Scene) (si : SurfaceInteraction) : Color :=
  scene.lights.foldl
    (fun le light =>
      let light_sample := light.sample
      let wo := (light_sample.position - si.position).normalize
      match scene.closest_hit ⟨si.position + (1e-3 : ℝ) * wo, wo⟩ with
      | some _ => le
      | none => le + (si.material.bsdf_eval si wo).radiance * light_sample.radiance)
    (Color.new 0 0 0)

/-- The loop state of `PathIntegrator::sample_radiance`: running
throughput, accumulated color, current ray, and the cursor into the
random stream. -/
structure LoopState where
  throughput : Color
  color : Color
  ray : Ray
  k : ℕ

/-- The emitted-light accumulation at a hit (`src/integrator.rs`, lines
41–43): add the attached emitter's radiance when present. -/
def emitterColor (st : LoopState) (si : SurfaceInteraction) : Color :=
  match si.emitter with
  | some light => st.color + st.throughput * light.sample.radiance
  | none => st.color

/-- The color accumulated by one loop iteration at a hit: emitted light,
then the direct-lighting sum scaled by the throughput
(`src/integrator.rs`, line 60). -/
def hitColor (scene : Scene) (st : LoopState) (si : SurfaceInteraction) : Color :=
  emitterColor st si + st.throughput * directLe scene si

/-- The sampled outgoing direction of one loop iteration
(`src/integrator.rs`, line 63), consuming the two draws at the cursor. -/
def hitWo (ξ : ℕ → ℝ) (st : LoopState) (si : SurfaceInteraction) : Vec :=
  si.material.bsdf_sample si (ξ st.k) (ξ (st.k + 1))

/-- The throughput after the indirect step (`src/integrator.rs`, line 66):
`(1/pdf) · throughput · radiance` with `(radiance, pdf)` the BSDF
evaluation at the sampled direction. -/
def hitThroughput (ξ : ℕ → ℝ) (st : LoopState) (si : SurfaceInteraction) : Color :=
  let wo := hitWo ξ st si
  let es := si.material.bsdf_eval si wo
  (1 / es.pdf) * st.throughput * es.radiance

/-- The next ray of one loop iteration (`src/integrator.rs`, lines
68–69): origin offset by `1e-3` along the sampled direction. -/
def hitRay (ξ : ℕ → ℝ) (st : LoopState) (si : SurfaceInteraction) : Ray :=
  let wo := hitWo ξ st si
  ⟨si.position + (1e-3 : ℝ) * wo, wo⟩

/-- The loop of `PathIntegrator::sample_radiance` (`src/integrator.rs`,
lines 35–78), with `fuel` the number of remaining iterations of
`for bounce in 0..max_bounce` and `bounce` the current index.  On a miss
the background is added and the loop breaks; on a hit the state is
updated and, when `bounce > russian_roulette`, the Russian-roulette draw
either breaks with the accumulated color or divides the throughput by the
channel maximum. -/
def PathIntegrator.go (I : PathIntegrator) (scene : Scene) (ξ : ℕ → ℝ) :
    ℕ → ℕ → LoopState → Color
  | 0, _, st => st.color
  | fuel + 1, bounce, st =>
      match scene.closest_hit st.ray with
      | none => st.color + st.throughput * scene.background_color
      | some si =>
          let color2 := hitColor scene st si
          let thr := hitThroughput ξ st si
          let ray2 := hitRay ξ st si
          if bounce > I.russian_roulette then
            let p := max thr.r (max thr.g thr.b)
            if ξ (st.k + 2) > p then color2
            else I.go scene ξ fuel (bounce + 1) ⟨(1 / p) * thr, color2, ray2, st.k + 3⟩
          else I.go scene ξ fuel (bounce + 1) ⟨thr, color2, ray2, st.k + 2⟩

/-- Model of `PathIntegrator::sample_radiance` from `src/integrator.rs`: run the
bounce loop from white throughput, black accumulator and the primary
ray. -/
def PathIntegrator.sample_radiance (I : PathIntegrator) (ray : Ray) (scene : Scene)
    (ξ : ℕ → ℝ) : Color :=
  I.go scene ξ I.max_bounce 0 ⟨Color.new 1 1 1, Color.new 0 0 0, ray, 0⟩

end

/-- Rust's `slice::chunks(size)` (used by `main` in `src/main.rs` as
`camera.get_pixels().chunks(num_cores)`): successive sublists of `size`
elements, the last possibly shorter.  Rust panics on `size = 0`; the
model returns `[]` there. -/
def chunksRS {α : Type} : List α → ℕ → List (List α)
  | [], _ => []
  | _ :: _, 0 => []
  | x :: xs, s + 1 => ((x :: xs).take (s + 1)) :: chunksRS ((x :: xs).drop (s + 1)) (s + 1)
termination_by xs _ => xs.length
decreasing_by
  simp only [List.length_drop, List.length_cons]
  omega

/-- The pixel coordinate list of `Sensor::constant` from `src/sensor.rs`:
row-major, `j` over the height outside, `i` over the width inside. -/
def sensorPixels (width height : ℕ) : List (ℕ × ℕ) :=
  (List.range height).flatMap (fun j => (List.range width).map (fun i => (i, j)))

/-- The number of workers `main` (`src/main.rs`, lines 144–176) spawns:
one per element of `pixels.chunks(num_cores)`. -/
def workersSpawned (pixels : List (ℕ × ℕ)) (num_cores : ℕ) : ℕ :=
  (chunksRS pixels num_cores).length

/-! Unfolding lemmas for the componentwise vector, point and color
operations, and evaluation helpers for `normalize` at vectors of known
length. -/

@[simp] theorem vecAdd_def (a b : Vec) :
    a + b = ⟨a.x + b.x, a.y + b.y, a.z + b.z⟩ := rfl

@[simp] theorem vecSub_def (a b : Vec) :
    a - b = ⟨a.x - b.x, a.y - b.y, a.z - b.z⟩ := rfl

@[simp] theorem vecNeg_def (a : Vec) : -a = ⟨-a.x, -a.y, -a.z⟩ := rfl

@[simp] theorem vecSmul_def (s : ℝ) (v : Vec) :
    s * v = ⟨s * v.x, s * v.y, s * v.z⟩ := rfl

@[simp] theorem pointAddVec_def (p : Point) (v : Vec) :
    p + v = ⟨p.x + v.x, p.y + v.y, p.z + v.z⟩ := rfl

@[simp] theorem pointSub_def (p q : Point) :
    p - q = (⟨p.x - q.x, p.y - q.y, p.z - q.z⟩ : Vec) := rfl

@[simp] theorem colorAdd_def (a b : Color) :
    a + b = ⟨a.r + b.r, a.g + b.g, a.b + b.b⟩ := rfl

@[simp] theorem colorSmul_def (s : ℝ) (c : Color) :
    s * c = ⟨s * c.r, s * c.g, s * c.b⟩ := rfl

@[simp] theorem colorMul_def (a b : Color) :
    a * b = ⟨a.r * b.r, a.g * b.g, a.b * b.b⟩ := rfl

@[simp] theorem dot_mk (a b : Vec) :
    dot a b = a.x * b.x + a.y * b.y + a.z * b.z := rfl

theorem norm2_eq (a : Vec) : norm2 a = a.x * a.x + a.y * a.y + a.z * a.z := rfl

/-- Model of `normalize` fixes a vector whose squared length is 1. -/
theorem normalize_unit (v : Vec) (h : v.x * v.x + v.y * v.y + v.z * v.z = 1) :
    Vec.normalize v = v := by
  unfold Vec.normalize
  rw [h, Real.sqrt_one]
  simp

/-- Model of `normalize` at a vector of known nonnegative length `L`. -/
theorem normalize_eq (v : Vec) (L : ℝ) (hL : 0 ≤ L)
    (h : v.x * v.x + v.y * v.y + v.z * v.z = L ^ 2) :
    Vec.normalize v = ⟨v.x / L, v.y / L, v.z / L⟩ := by
  unfold Vec.normalize
  rw [h, Real.sqrt_sq hL]

/-- Evaluation of scenario S1: the sphere at `(0,5,0)` of radius 3 hit by
the ray from `(0,−1,0)` toward `(0,1,0)` at `t = 3`. -/
theorem s1_eval (m : Material) :
    Shape.intersect (Shape.sphere ⟨0, 5, 0⟩ 3 m) ⟨⟨0, -1, 0⟩, ⟨0, 1, 0⟩⟩ =
      some ⟨⟨0, 2, 0⟩, ⟨0, -1, 0⟩, 3, m, ⟨0, -1, 0⟩, none⟩ := by
  have h9 : Real.sqrt 9 = 3 := by
    rw [show (9 : ℝ) = 3 ^ 2 by norm_num, Real.sqrt_sq (by norm_num : (0 : ℝ) ≤ 3)]
  unfold Shape.intersect
  rw [normalize_unit ⟨0, 1, 0⟩ (by norm_num)]
  norm_num [norm2_eq, h9]
  rw [normalize_eq ⟨0, -3, 0⟩ 3 (by norm_num) (by norm_num)]
  norm_num

/-- Evaluation of scenario S2: the same sphere missed by the ray from
`(0,−1,0)` toward `(1,0,0)` (negative discriminant). -/
theorem s2_eval (m : Material) :
    Shape.intersect (Shape.sphere ⟨0, 5, 0⟩ 3 m) ⟨⟨0, -1, 0⟩, ⟨1, 0, 0⟩⟩ =
      none := by
  unfold Shape.intersect
  rw [normalize_unit ⟨1, 0, 0⟩ (by norm_num)]
  norm_num [norm2_eq]

/-- The unit sphere at the origin intersected from the point `(0,1,0)` on
its surface, aiming at `(0,−1,0)`: the nearer root is `t = 0` and the
code reports a hit there. -/
theorem sphere_t0_eval :
    Shape.intersect (Shape.sphere ⟨0, 0, 0⟩ 1 .blackBody) ⟨⟨0, 1, 0⟩, ⟨0, -1, 0⟩⟩ =
      some ⟨⟨0, 1, 0⟩, ⟨0, 1, 0⟩, 0, .blackBody, ⟨0, 1, 0⟩, none⟩ := by
  unfold Shape.intersect
  rw [normalize_unit ⟨0, -1, 0⟩ (by norm_num)]
  norm_num [norm2_eq, Real.sqrt_one]
  rw [normalize_unit ⟨0, 1, 0⟩ (by norm_num)]

/-- Evaluation of scenario S4, front side: the plane through the origin
with normal `(0,1,0)` hit from `(0,1,0)` toward `(0,−1,0)` at the
origin. -/
theorem s4_hit_eval (m : Material) :
    Shape.intersect (Shape.plane ⟨0, 0, 0⟩ ⟨0, 1, 0⟩ m) ⟨⟨0, 1, 0⟩, ⟨0, -1, 0⟩⟩ =
      some ⟨⟨0, 0, 0⟩, ⟨0, 1, 0⟩, 1, m, ⟨0, 1, 0⟩, none⟩ := by
  unfold Shape.intersect
  rw [normalize_unit ⟨0, -1, 0⟩ (by norm_num)]
  norm_num

/-- Evaluation of scenario S4, back side: the same plane missed from
`(0,−1,0)` toward `(0,1,0)`. -/
theorem s4_miss_eval (m : Material) :
    Shape.intersect (Shape.plane ⟨0, 0, 0⟩ ⟨0, 1, 0⟩ m) ⟨⟨0, -1, 0⟩, ⟨0, 1, 0⟩⟩ =
      none := by
  unfold Shape.intersect
  rw [normalize_unit ⟨0, 1, 0⟩ (by norm_num)]
  norm_num

/-- A plane whose normal makes `u·n` exactly `−10⁻⁶` with the ray
direction: the guard `denom > −1e-6` is false, so the code proceeds and
returns a hit at `t = 1`. -/
theorem plane_boundary_eval :
    Shape.intersect (Shape.plane ⟨1, 0, 0⟩ ⟨-1e-6, 0, 0⟩ .blackBody)
        ⟨⟨0, 0, 0⟩, ⟨1, 0, 0⟩⟩ =
      some ⟨⟨1, 0, 0⟩, ⟨-1e-6, 0, 0⟩, 1, .blackBody, ⟨-1, 0, 0⟩, none⟩ := by
  unfold Shape.intersect
  rw [normalize_unit ⟨1, 0, 0⟩ (by norm_num)]
  norm_num

/-- The unit sphere at `(0,0,5)` hit from the origin along `+z` at
`t = 4`. -/
theorem sphereA_eval :
    Shape.intersect (Shape.sphere ⟨0, 0, 5⟩ 1 .blackBody) ⟨⟨0, 0, 0⟩, ⟨0, 0, 1⟩⟩ =
      some ⟨⟨0, 0, 4⟩, ⟨0, 0, -1⟩, 4, .blackBody, ⟨0, 0, -1⟩, none⟩ := by
  unfold Shape.intersect
  rw [normalize_unit ⟨0, 0, 1⟩ (by norm_num)]
  norm_num [norm2_eq, Real.sqrt_one]
  rw [normalize_unit ⟨0, 0, -1⟩ (by norm_num)]

/-- The unit sphere at `(0,0,10)` hit from the origin along `+z` at
`t = 9`. -/
theorem sphereB_eval :
    Shape.intersect (Shape.sphere ⟨0, 0, 10⟩ 1 .blackBody) ⟨⟨0, 0, 0⟩, ⟨0, 0, 1⟩⟩ =
      some ⟨⟨0, 0, 9⟩, ⟨0, 0, -1⟩, 9, .blackBody, ⟨0, 0, -1⟩, none⟩ := by
  unfold Shape.intersect
  rw [normalize_unit ⟨0, 0, 1⟩ (by norm_num)]
  norm_num [norm2_eq, Real.sqrt_one]
  rw [normalize_unit ⟨0, 0, -1⟩ (by norm_num)]

/-- Decomposition of the `min_by` fold: the result splits the input list
into a prefix of elements with strictly larger `t`, the result itself,
and a suffix; and the result's `t` is minimal. -/
theorem minBy1_split (xs : List SurfaceInteraction) :
    ∀ a : SurfaceInteraction, ∃ pre post,
      a :: xs = pre ++ minBy1 a xs :: post
      ∧ (∀ h ∈ pre, (minBy1 a xs).t < h.t)
      ∧ ∀ h ∈ a :: xs, (minBy1 a xs).t ≤ h.t := by
  induction xs with
  | nil =>
      intro a
      exact ⟨[], [], by simp [minBy1], by simp, by simp [minBy1]⟩
  | cons x xs ih =>
      intro a
      obtain ⟨pre, post, hsplit, hpre, hle⟩ := ih (minByStep a x)
      have hgo : minBy1 a (x :: xs) = minBy1 (minByStep a x) xs := rfl
      rw [hgo]
      by_cases hx : x.t < a.t
      · have hb : minByStep a x = x := if_pos hx
        rw [hb] at hsplit hpre hle ⊢
        have hrx : (minBy1 x xs).t ≤ x.t := hle x (List.mem_cons_self x xs)
        refine ⟨a :: pre, post, ?_, ?_, ?_⟩
        · rw [List.cons_append, ← hsplit]
        · intro h hh
          obtain heq | hh := List.mem_cons.mp hh
          · rw [heq]; exact lt_of_le_of_lt hrx hx
          · exact hpre h hh
        · intro h hh
          obtain heq | hh := List.mem_cons.mp hh
          · rw [heq]; exact le_of_lt (lt_of_le_of_lt hrx hx)
          · exact hle h hh
      · have hb : minByStep a x = a := if_neg hx
        have hax : a.t ≤ x.t := not_lt.mp hx
        rw [hb] at hsplit hpre hle ⊢
        cases pre with
        | nil =>
            simp only [List.nil_append, List.cons.injEq] at hsplit
            refine ⟨[], x :: xs, ?_, by simp, ?_⟩
            · rw [List.nil_append, ← hsplit.1]
            · intro h hh
              obtain heq | hh := List.mem_cons.mp hh
              · rw [heq, ← hsplit.1]
              · obtain heq | hh := List.mem_cons.mp hh
                · rw [heq, ← hsplit.1]; exact hax
                · exact hle h (List.mem_cons_of_mem a hh)
        | cons p pre' =>
            simp only [List.cons_append, List.cons.injEq] at hsplit
            obtain ⟨hap, hxs⟩ := hsplit
            have hra : (minBy1 a xs).t < a.t := by
              have h1 := hpre p (List.mem_cons_self p pre')
              rw [← hap] at h1
              exact h1
            refine ⟨a :: x :: pre', post, ?_, ?_, ?_⟩
            · simp only [List.cons_append, List.cons.injEq, true_and]
              exact hxs
            · intro h hh
              obtain heq | hh := List.mem_cons.mp hh
              · rw [heq]; exact hra
              · obtain heq | hh := List.mem_cons.mp hh
                · rw [heq]; exact lt_of_lt_of_le hra hax
                · exact hpre h (List.mem_cons_of_mem p hh)
            · intro h hh
              obtain heq | hh := List.mem_cons.mp hh
              · rw [heq]; exact le_of_lt hra
              · obtain heq | hh := List.mem_cons.mp hh
                · rw [heq]; exact le_of_lt (lt_of_lt_of_le hra hax)
                · exact hle h (List.mem_cons_of_mem a hh)

/-- Every surface interaction produced by `Shape::intersect` carries no
emitter. -/
theorem intersect_emitter_none (sh : Shape) (ray : Ray) (si : SurfaceInteraction)
    (h : sh.intersect ray = some si) : si.emitter = none := by
  cases sh with
  | sphere c r m =>
      unfold Shape.intersect at h
      simp only at h
      split at h
      · exact absurd h (by simp)
      · split at h
        · exact absurd h (by simp)
        · rw [Option.some.injEq] at h
          rw [← h]
  | plane c n m =>
      unfold Shape.intersect at h
      simp only at h
      split at h
      · exact absurd h (by simp)
      · split at h
        · exact absurd h (by simp)
        · rw [Option.some.injEq] at h
          rw [← h]

/-- Rebuilding a surface interaction with `emitter := none` is the
identity when its emitter is already absent. -/
theorem rewrap_eq (si : SurfaceInteraction) (h : si.emitter = none) :
    (⟨si.position, si.normal, si.t, si.material, si.wi, none⟩ : SurfaceInteraction) = si := by
  cases si
  simp_all

/-- C3: `Scene::closest_hit` returns `none` exactly when every shape
misses; otherwise it returns the hit of smallest `t` among all shapes'
hits, and on ties the hit of the earliest shape in insertion order (the
hit list splits into a prefix of strictly-larger `t`, the returned hit,
and a suffix). -/
theorem spec_C3 (scene : Scene) (ray : Ray) :
    (scene.closest_hit ray = none ↔ ∀ sh ∈ scene.shapes, sh.intersect ray = none)
    ∧ ∀ si, scene.closest_hit ray = some si →
        ∃ pre post,
          scene.shapes.filterMap (fun sh => sh.intersect ray) = pre ++ si :: post
          ∧ (∀ h ∈ pre, si.t < h.t)
          ∧ ∀ sh ∈ scene.shapes, ∀ h, sh.intersect ray = some h → si.t ≤ h.t := by
  constructor
  · unfold Scene.closest_hit
    rw [Option.map_eq_none']
    cases hh : scene.shapes.filterMap (fun sh => sh.intersect ray) with
    | nil =>
        constructor
        · intro _
          exact List.filterMap_eq_nil_iff.mp hh
        · intro _
          rfl
    | cons x xs =>
        simp only [minByFirst]
        constructor
        · intro h
          exact absurd h (by simp)
        · intro hall
          rw [List.filterMap_eq_nil_iff.mpr hall] at hh
          exact absurd hh (by simp)
  · intro si hsi
    unfold Scene.closest_hit at hsi
    rw [Option.map_eq_some'] at hsi
    obtain ⟨r, hr, hsi⟩ := hsi
    cases hh : scene.shapes.filterMap (fun sh => sh.intersect ray) with
    | nil =>
        rw [hh] at hr
        exact absurd hr (by simp [minByFirst])
    | cons x xs =>
        rw [hh] at hr
        simp only [minByFirst, Option.some.injEq] at hr
        obtain ⟨pre, post, hsplit, hpre, hle⟩ := minBy1_split xs x
        rw [hr] at hsplit hpre hle
        have hrmem : r ∈ x :: xs := by
          rw [hsplit]
          exact List.mem_append_right _ (List.mem_cons_self _ _)
        have hrem : r.emitter = none := by
          obtain ⟨sh, hshmem, hsh⟩ := List.mem_filterMap.mp (show r ∈ _ by rw [hh]; exact hrmem)
          exact intersect_emitter_none sh ray r hsh
        have hsir : si = r := by
          rw [← hsi]
          exact rewrap_eq r hrem

        subst hsir
        refine ⟨pre, post, hsplit, hpre, ?_⟩
        · intro sh hshmem h hsh
          have : h ∈ x :: xs := by
            rw [← hh]
            exact List.mem_filterMap.mpr ⟨sh, hshmem, hsh⟩
          exact hle h this

/-- Witness scene for C3: two unit spheres along the `+z` axis. -/
theorem spec_C3_witness :
    (Scene.closest_hit
        ⟨[Shape.sphere ⟨0, 0, 5⟩ 1 .blackBody, Shape.sphere ⟨0, 0, 10⟩ 1 .blackBody],
          [], Color.new 0 0 0⟩ ⟨⟨0, 0, 0⟩, ⟨0, 0, 1⟩⟩ =
      some ⟨⟨0, 0, 4⟩, ⟨0, 0, -1⟩, 4, .blackBody, ⟨0, 0, -1⟩, none⟩)
    ∧ ∃ pre post,
        [Shape.sphere ⟨0, 0, 5⟩ 1 .blackBody,
            Shape.sphere ⟨0, 0, 10⟩ 1 .blackBody].filterMap
          (fun sh => sh.intersect ⟨⟨0, 0, 0⟩, ⟨0, 0, 1⟩⟩) =
          pre ++ (⟨⟨0, 0, 4⟩, ⟨0, 0, -1⟩, 4, .blackBody, ⟨0, 0, -1⟩, none⟩ :
            SurfaceInteraction) :: post
        ∧ (∀ h ∈ pre,
            (⟨⟨0, 0, 4⟩, ⟨0, 0, -1⟩, 4, Material.blackBody, ⟨0, 0, -1⟩, none⟩ :
              SurfaceInteraction).t < h.t)
        ∧ ∀ sh ∈ [Shape.sphere ⟨0, 0, 5⟩ 1 .blackBody,
              Shape.sphere ⟨0, 0, 10⟩ 1 .blackBody],
            ∀ h, sh.intersect ⟨⟨0, 0, 0⟩, ⟨0, 0, 1⟩⟩ = some h →
              (⟨⟨0, 0, 4⟩, ⟨0, 0, -1⟩, 4, Material.blackBody, ⟨0, 0, -1⟩, none⟩ :
                SurfaceInteraction).t ≤ h.t := by
  have hch :
      Scene.closest_hit
        ⟨[Shape.sphere ⟨0, 0, 5⟩ 1 .blackBody, Shape.sphere ⟨0, 0, 10⟩ 1 .blackBody],
          [], Color.new 0 0 0⟩ ⟨⟨0, 0, 0⟩, ⟨0, 0, 1⟩⟩ =
        some ⟨⟨0, 0, 4⟩, ⟨0, 0, -1⟩, 4, .blackBody, ⟨0, 0, -1⟩, none⟩ := by
    unfold Scene.closest_hit
    rw [show
        [Shape.sphere ⟨0, 0, 5⟩ 1 Material.blackBody,
            Shape.sphere ⟨0, 0, 10⟩ 1 Material.blackBody].filterMap
          (fun sh => sh.intersect ⟨⟨0, 0, 0⟩, ⟨0, 0, 1⟩⟩) =
        [⟨⟨0, 0, 4⟩, ⟨0, 0, -1⟩, 4, .blackBody, ⟨0, 0, -1⟩, none⟩,
          ⟨⟨0, 0, 9⟩, ⟨0, 0, -1⟩, 9, .blackBody, ⟨0, 0, -1⟩, none⟩] by
      simp [List.filterMap, sphereA_eval, sphereB_eval]]
    simp only [minByFirst, minBy1, minByStep, Option.map_some']
    norm_num
  exact ⟨hch, (spec_C3 _ _).2 _ hch⟩

/-- C1 (amended): for every shape and ray, a surface interaction returned
by `intersect` has nonnegative parametric distance `t`; the guards reject
only strictly negative `t`, so a solution with `t = 0` is reported as a
hit, not a miss. -/
theorem spec_C1_amended (sh : Shape) (ray : Ray) (si : SurfaceInteraction)
    (h : sh.intersect ray = some si) : 0 ≤ si.t := by
  cases sh with
  | sphere c r m =>
      unfold Shape.intersect at h
      simp only at h
      split at h
      · exact absurd h (by simp)
      · rename_i hneg
        split at h
        · exact absurd h (by simp)
        · rename_i ht
          rw [Option.some.injEq] at h
          rw [← h]
          exact not_lt.mp ht
  | plane c n m =>
      unfold Shape.intersect at h
      simp only at h
      split at h
      · exact absurd h (by simp)
      · split at h
        · exact absurd h (by simp)
        · rename_i ht
          rw [Option.some.injEq] at h
          rw [← h]
          exact not_lt.mp ht

/-- C1 counterexample: the unit sphere at the origin, intersected by the
ray with origin `(0,1,0)` (on the surface) and direction `(0,−1,0)`,
returns a hit with `t = 0` — not a miss, and not strictly positive. -/
theorem spec_C1_counterexample :
    (Shape.intersect (Shape.sphere ⟨0, 0, 0⟩ 1 .blackBody)
        ⟨⟨0, 1, 0⟩, ⟨0, -1, 0⟩⟩).map SurfaceInteraction.t = some 0 := by
  rw [sphere_t0_eval]
  rfl

/-- Witness for C1 at scenario S1. -/
theorem spec_C1_witness :
    Shape.intersect (Shape.sphere ⟨0, 5, 0⟩ 3 .blackBody) ⟨⟨0, -1, 0⟩, ⟨0, 1, 0⟩⟩ =
        some ⟨⟨0, 2, 0⟩, ⟨0, -1, 0⟩, 3, .blackBody, ⟨0, -1, 0⟩, none⟩
    ∧ 0 ≤ (⟨⟨0, 2, 0⟩, ⟨0, -1, 0⟩, 3, Material.blackBody, ⟨0, -1, 0⟩, none⟩ :
        SurfaceInteraction).t :=
  ⟨s1_eval .blackBody, spec_C1_amended _ _ _ (s1_eval .blackBody)⟩

/-- C4: for the sphere with center `(0,5,0)` and radius 3 (any material),
the ray from `(0,−1,0)` toward `(0,1,0)` hits at position `(0,2,0)` with
normal `(0,−1,0)` and `t = 3`, and the ray from `(0,−1,0)` toward
`(1,0,0)` misses. -/
theorem spec_C4 (m : Material) :
    Shape.intersect (Shape.sphere ⟨0, 5, 0⟩ 3 m) ⟨⟨0, -1, 0⟩, ⟨0, 1, 0⟩⟩ =
        some ⟨⟨0, 2, 0⟩, ⟨0, -1, 0⟩, 3, m, ⟨0, -1, 0⟩, none⟩
    ∧ Shape.intersect (Shape.sphere ⟨0, 5, 0⟩ 3 m) ⟨⟨0, -1, 0⟩, ⟨1, 0, 0⟩⟩ = none :=
  ⟨s1_eval m, s2_eval m⟩

/-- C5 (amended): the plane misses whenever `u·n` is strictly greater
than `−10⁻⁶` (at exactly `−10⁻⁶` the guard passes and the plane can be
hit), and the S4 front-side/back-side behaviors hold as stated. -/
theorem spec_C5 :
    (∀ (c : Point) (n : Vec) (m : Material) (ray : Ray),
        dot ray.direction.normalize n > -1e-6 →
        Shape.intersect (Shape.plane c n m) ray = none)
    ∧ (∀ m : Material,
        Shape.intersect (Shape.plane ⟨0, 0, 0⟩ ⟨0, 1, 0⟩ m) ⟨⟨0, 1, 0⟩, ⟨0, -1, 0⟩⟩ =
          some ⟨⟨0, 0, 0⟩, ⟨0, 1, 0⟩, 1, m, ⟨0, 1, 0⟩, none⟩)
    ∧ ∀ m : Material,
        Shape.intersect (Shape.plane ⟨0, 0, 0⟩ ⟨0, 1, 0⟩ m) ⟨⟨0, -1, 0⟩, ⟨0, 1, 0⟩⟩ =
          none := by
  refine ⟨?_, s4_hit_eval, s4_miss_eval⟩
  intro c n m ray hdenom
  unfold Shape.intersect
  simp only
  rw [if_pos hdenom]

/-- C5 counterexample: a ray direction and plane normal with
`u·n = −10⁻⁶` exactly; the claim's `≥ −10⁻⁶` test would demand a miss,
but the code's strict `> −10⁻⁶` guard passes and the plane is hit. -/
theorem spec_C5_counterexample :
    -1e-6 ≤ dot (Vec.normalize ⟨1, 0, 0⟩) ⟨-1e-6, 0, 0⟩
    ∧ Shape.intersect (Shape.plane ⟨1, 0, 0⟩ ⟨-1e-6, 0, 0⟩ .blackBody)
        ⟨⟨0, 0, 0⟩, ⟨1, 0, 0⟩⟩ ≠ none := by
  constructor
  · rw [normalize_unit ⟨1, 0, 0⟩ (by norm_num)]
    norm_num
  · rw [plane_boundary_eval]
    simp

/-- Witness for C5 at the S4 back-side ray. -/
theorem spec_C5_witness :
    dot (Vec.normalize ⟨0, 1, 0⟩) ⟨0, 1, 0⟩ > -1e-6
    ∧ Shape.intersect (Shape.plane ⟨0, 0, 0⟩ ⟨0, 1, 0⟩ .blackBody)
        ⟨⟨0, -1, 0⟩, ⟨0, 1, 0⟩⟩ = none := by
  have hdot : dot (Vec.normalize ⟨0, 1, 0⟩) ⟨0, 1, 0⟩ > -1e-6 := by
    rw [normalize_unit ⟨0, 1, 0⟩ (by norm_num)]
    norm_num
  exact ⟨hdot, (spec_C5).1 ⟨0, 0, 0⟩ ⟨0, 1, 0⟩ .blackBody ⟨⟨0, -1, 0⟩, ⟨0, 1, 0⟩⟩ hdot⟩

/-- The normalization of any vector with `z`-component `−1` has a
strictly negative `z`-component. -/
theorem normalize_z_neg (a b : ℝ) : (Vec.normalize ⟨a, b, -1⟩).z < 0 := by
  unfold Vec.normalize
  show (-1 : ℝ) / Real.sqrt (a * a + b * b + -1 * -1) < 0
  apply div_neg_of_neg_of_pos
  · norm_num
  · apply Real.sqrt_pos.mpr
    nlinarith [mul_self_nonneg a, mul_self_nonneg b]

/-- C6: `sample_ray` returns `none` exactly when the pixel is outside the
sensor; inside, for every pair of jitter values, it returns a ray with
origin `(0,0,0)` and a direction whose `z` component is strictly
negative. -/
theorem spec_C6 (cam : PinholeCamera) (i j : ℕ) (ξ1 ξ2 : ℝ) :
    (cam.sample_ray i j ξ1 ξ2 = none ↔ (cam.sensor.width ≤ i ∨ cam.sensor.height ≤ j))
    ∧ (i < cam.sensor.width → j < cam.sensor.height →
        ∃ r, cam.sample_ray i j ξ1 ξ2 = some r
          ∧ r.origin = ⟨0, 0, 0⟩ ∧ r.direction.z < 0) := by
  constructor
  · unfold PinholeCamera.sample_ray
    by_cases hin : cam.sensor.inside i j
    · rw [if_neg (not_not.mpr hin)]
      simp only [Option.some_ne_none, false_iff]
      unfold Sensor.inside at hin
      omega
    · rw [if_pos hin]
      simp only [true_iff]
      unfold Sensor.inside at hin
      omega
  · intro hi hj
    unfold PinholeCamera.sample_ray
    rw [if_neg (not_not.mpr ⟨hi, hj⟩)]
    refine ⟨_, rfl, rfl, ?_⟩
    exact normalize_z_neg _ _

/-- Witness for C6: the 200×100 sensor with a 45° field of view at pixel
`(100, 50)` with zero jitter. -/
theorem spec_C6_witness :
    ((PinholeCamera.new ⟨200, 100⟩ 45).sample_ray 100 50 0 0 = none ↔
      ((PinholeCamera.new ⟨200, 100⟩ 45).sensor.width ≤ 100 ∨
        (PinholeCamera.new ⟨200, 100⟩ 45).sensor.height ≤ 50))
    ∧ ∃ r, (PinholeCamera.new ⟨200, 100⟩ 45).sample_ray 100 50 0 0 = some r
        ∧ r.origin = ⟨0, 0, 0⟩ ∧ r.direction.z < 0 :=
  ⟨(spec_C6 _ _ _ _ _).1,
    (spec_C6 (PinholeCamera.new ⟨200, 100⟩ 45) 100 50 0 0).2
      (by norm_num [PinholeCamera.new]) (by norm_num [PinholeCamera.new])⟩

/-- C10: with `max_bounce = 0` the bounce loop never runs, so
`sample_radiance` returns black for every ray, scene and random
stream. -/
theorem spec_C10 (rr : ℕ) (ray : Ray) (scene : Scene) (ξ : ℕ → ℝ) :
    PathIntegrator.sample_radiance ⟨0, rr⟩ ray scene ξ = Color.new 0 0 0 := rfl

/-- C7: when the closest-hit query misses, the loop adds
`throughput · background` to the accumulated color and terminates; hence
on a scene with no shapes and `max_bounce ≥ 1` the integrator returns
exactly the background color. -/
theorem spec_C7 :
    (∀ (I : PathIntegrator) (scene : Scene) (ξ : ℕ → ℝ) (fuel bounce : ℕ) (st : LoopState),
        scene.closest_hit st.ray = none →
        I.go scene ξ (fuel + 1) bounce st =
          st.color + st.throughput * scene.background_color)
    ∧ ∀ (bg : Color) (lights : List Emitter) (mb rr : ℕ) (ray : Ray) (ξ : ℕ → ℝ),
        1 ≤ mb →
        PathIntegrator.sample_radiance ⟨mb, rr⟩ ray ⟨[], lights, bg⟩ ξ = bg := by
  have part1 : ∀ (I : PathIntegrator) (scene : Scene) (ξ : ℕ → ℝ) (fuel bounce : ℕ)
      (st : LoopState),
      scene.closest_hit st.ray = none →
      I.go scene ξ (fuel + 1) bounce st =
        st.color + st.throughput * scene.background_color := by
    intro I scene ξ fuel bounce st h
    simp only [PathIntegrator.go, h]
  refine ⟨part1, ?_⟩
  intro bg lights mb rr ray ξ hmb
  obtain ⟨fuel, rfl⟩ : ∃ f, mb = f + 1 := ⟨mb - 1, by omega⟩
  show PathIntegrator.go ⟨fuel + 1, rr⟩ ⟨[], lights, bg⟩ ξ (fuel + 1) 0
      ⟨Color.new 1 1 1, Color.new 0 0 0, ray, 0⟩ = bg
  rw [part1 ⟨fuel + 1, rr⟩ ⟨[], lights, bg⟩ ξ fuel 0
      ⟨Color.new 1 1 1, Color.new 0 0 0, ray, 0⟩ rfl]
  cases bg with
  | mk r g b => simp [Color.new]

/-- Witness for C7: an empty scene with background `(0.2, 0.2, 0.2)` and
one bounce. -/
theorem spec_C7_witness :
    (PathIntegrator.go ⟨1, 0⟩ ⟨[], [], Color.new 0.2 0.2 0.2⟩ (fun _ => 0) 1 0
        ⟨Color.new 1 1 1, Color.new 0 0 0, ⟨⟨0, 0, 0⟩, ⟨0, 0, -1⟩⟩, 0⟩ =
      Color.new 0 0 0 + Color.new 1 1 1 * Color.new 0.2 0.2 0.2)
    ∧ PathIntegrator.sample_radiance ⟨1, 0⟩ ⟨⟨0, 0, 0⟩, ⟨0, 0, -1⟩⟩
        ⟨[], [], Color.new 0.2 0.2 0.2⟩ (fun _ => 0) = Color.new 0.2 0.2 0.2 :=
  ⟨(spec_C7).1 ⟨1, 0⟩ ⟨[], [], Color.new 0.2 0.2 0.2⟩ (fun _ => 0) 0 0
      ⟨Color.new 1 1 1, Color.new 0 0 0, ⟨⟨0, 0, 0⟩, ⟨0, 0, -1⟩⟩, 0⟩ rfl,
    (spec_C7).2 (Color.new 0.2 0.2 0.2) [] 1 0 ⟨⟨0, 0, 0⟩, ⟨0, 0, -1⟩⟩ (fun _ => 0)
      (by norm_num)⟩

/-- C8: at a hit, Russian roulette runs only when the bounce index
strictly exceeds `russian_roulette` (otherwise the loop continues with
the indirect-step state and consumes no roulette draw); when it runs, `q`
is the maximum of the three throughput channels, one uniform draw `ξ` is
taken, the path terminates with the color accumulated so far if `ξ > q`,
and otherwise the throughput is divided by `q` before the next bounce. -/
theorem spec_C8 (I : PathIntegrator) (scene : Scene) (ξ : ℕ → ℝ) (fuel bounce : ℕ)
    (st : LoopState) (si : SurfaceInteraction)
    (hhit : scene.closest_hit st.ray = some si) :
    (bounce ≤ I.russian_roulette →
      I.go scene ξ (fuel + 1) bounce st =
        I.go scene ξ fuel (bounce + 1)
          ⟨hitThroughput ξ st si, hitColor scene st si, hitRay ξ st si, st.k + 2⟩)
    ∧ (I.russian_roulette < bounce →
        (max (hitThroughput ξ st si).r
            (max (hitThroughput ξ st si).g (hitThroughput ξ st si).b) < ξ (st.k + 2) →
          I.go scene ξ (fuel + 1) bounce st = hitColor scene st si)
        ∧ (ξ (st.k + 2) ≤
            max (hitThroughput ξ st si).r
              (max (hitThroughput ξ st si).g (hitThroughput ξ st si).b) →
          I.go scene ξ (fuel + 1) bounce st =
            I.go scene ξ fuel (bounce + 1)
              ⟨(1 / max (hitThroughput ξ st si).r
                    (max (hitThroughput ξ st si).g (hitThroughput ξ st si).b)) *
                  hitThroughput ξ st si,
                hitColor scene st si, hitRay ξ st si, st.k + 3⟩)) := by
  simp only [PathIntegrator.go, hhit]
  refine ⟨?_, ?_⟩
  · intro hle
    rw [if_neg (not_lt.mpr hle)]
  · intro hgt
    constructor
    · intro hxi
      rw [if_pos hgt, if_pos hxi]
    · intro hxi
      rw [if_pos hgt, if_neg (not_lt.mpr hxi)]

/-- Model of `closest_hit` of the single-plane scene of scenario S4 evaluated on
the front-side ray. -/
theorem closest_hit_plane_eval (bg : Color) :
    Scene.closest_hit ⟨[Shape.plane ⟨0, 0, 0⟩ ⟨0, 1, 0⟩ .blackBody], [], bg⟩
        ⟨⟨0, 1, 0⟩, ⟨0, -1, 0⟩⟩ =
      some ⟨⟨0, 0, 0⟩, ⟨0, 1, 0⟩, 1, .blackBody, ⟨0, 1, 0⟩, none⟩ := by
  unfold Scene.closest_hit
  rw [show [Shape.plane ⟨0, 0, 0⟩ ⟨0, 1, 0⟩ Material.blackBody].filterMap
        (fun sh => sh.intersect ⟨⟨0, 1, 0⟩, ⟨0, -1, 0⟩⟩) =
      [⟨⟨0, 0, 0⟩, ⟨0, 1, 0⟩, 1, .blackBody, ⟨0, 1, 0⟩, none⟩] by
    simp [List.filterMap, s4_hit_eval]]
  rfl

/-- The indirect-step throughput vanishes on a black-body hit: the BSDF
radiance is zero, so the componentwise product is the zero color. -/
theorem hitThroughput_blackBody (ξ : ℕ → ℝ) (st : LoopState) (si : SurfaceInteraction)
    (h : si.material = .blackBody) : hitThroughput ξ st si = Color.new 0 0 0 := by
  simp [hitThroughput, h, Material.bsdf_eval, Color.new]

/-- Witness for C8: a black-body plane hit at bounce 1 with
`russian_roulette = 0`; the throughput maximum is 0, the draw is 1, so
the roulette terminates with the accumulated color. -/
theorem spec_C8_witness :
    PathIntegrator.go ⟨2, 0⟩
        ⟨[Shape.plane ⟨0, 0, 0⟩ ⟨0, 1, 0⟩ .blackBody], [], Color.new 0 0 0⟩
        (fun _ => 1) 1 1
        ⟨Color.new 1 1 1, Color.new 0 0 0, ⟨⟨0, 1, 0⟩, ⟨0, -1, 0⟩⟩, 0⟩ =
      hitColor ⟨[Shape.plane ⟨0, 0, 0⟩ ⟨0, 1, 0⟩ .blackBody], [], Color.new 0 0 0⟩
        ⟨Color.new 1 1 1, Color.new 0 0 0, ⟨⟨0, 1, 0⟩, ⟨0, -1, 0⟩⟩, 0⟩
        ⟨⟨0, 0, 0⟩, ⟨0, 1, 0⟩, 1, .blackBody, ⟨0, 1, 0⟩, none⟩ := by
  have h8 := spec_C8 ⟨2, 0⟩
      ⟨[Shape.plane ⟨0, 0, 0⟩ ⟨0, 1, 0⟩ .blackBody], [], Color.new 0 0 0⟩
      (fun _ => 1) 0 1
      ⟨Color.new 1 1 1, Color.new 0 0 0, ⟨⟨0, 1, 0⟩, ⟨0, -1, 0⟩⟩, 0⟩
      ⟨⟨0, 0, 0⟩, ⟨0, 1, 0⟩, 1, .blackBody, ⟨0, 1, 0⟩, none⟩
      (closest_hit_plane_eval (Color.new 0 0 0))
  have hmax := (h8.2 (by show (0 : ℕ) < 1; norm_num)).1
  rw [hitThroughput_blackBody (fun _ => 1)
      ⟨Color.new 1 1 1, Color.new 0 0 0, ⟨⟨0, 1, 0⟩, ⟨0, -1, 0⟩⟩, 0⟩
      ⟨⟨0, 0, 0⟩, ⟨0, 1, 0⟩, 1, .blackBody, ⟨0, 1, 0⟩, none⟩ rfl] at hmax
  exact hmax (by norm_num [Color.new])

/-- Model of `chunksRS` with chunk size `s + 1` on a list whose length is an exact
multiple of the chunk size produces exactly that many chunks. -/
theorem chunksRS_length_exact {α : Type} (s : ℕ) :
    ∀ (k : ℕ) (xs : List α), xs.length = (s + 1) * k → (chunksRS xs (s + 1)).length = k := by
  intro k
  induction k with
  | zero =>
      intro xs h
      have hx : xs = [] := List.length_eq_zero.mp (by simpa using h)
      subst hx
      rw [chunksRS]
      rfl
  | succ n ih =>
      intro xs h
      cases xs with
      | nil =>
          have hne : (s + 1) * (n + 1) ≠ 0 :=
            Nat.mul_ne_zero (Nat.succ_ne_zero s) (Nat.succ_ne_zero n)
          simp only [List.length_nil] at h
          exact absurd h.symm hne
      | cons x xs' =>
          rw [chunksRS]
          have hlen : ((x :: xs').drop (s + 1)).length = (s + 1) * n := by
            rw [List.length_drop, h, Nat.mul_succ, Nat.add_sub_cancel]
          rw [List.length_cons, ih _ hlen]

/-- The sensor pixel list has `height · width` entries. -/
theorem sensorPixels_length (w h : ℕ) : (sensorPixels w h).length = h * w := by
  simp [sensorPixels, Function.comp_def, List.map_const']

/-- C2 (behavior at the failing input): on the program's 800×800 sensor
with `num_cores = 4`, `pixels.chunks(num_cores)` yields 160000 chunks of
4 pixels each — `main` spawns 160000 workers, not 4. -/
theorem spec_C2_behavior :
    workersSpawned (sensorPixels 800 800) 4 = 160000 ∧ (160000 : ℕ) ≠ 4 := by
  constructor
  · exact chunksRS_length_exact 3 160000 (sensorPixels 800 800)
      (by rw [sensorPixels_length])
  · norm_num

theorem truncToZero_nonneg (x : ℝ) (h : 0 ≤ x) : truncToZero x = ⌊x⌋ := if_pos h

theorem truncToZero_neg (x : ℝ) (h : x < 0) : truncToZero x = ⌈x⌉ := if_neg (not_le.mpr h)

/-- The saturating cast of `x · 255` agrees with the spec's formulation
`clamp01(x) · 255` truncated toward zero, for every real channel value. -/
theorem cast_eq_quant (x : ℝ) : castF32U8 (x * 255) = specQuantChannel x := by
  unfold castF32U8 specQuantChannel
  rcases lt_or_le x 0 with hx | hx
  · have hx255 : x * 255 < 0 := by nlinarith
    rw [truncToZero_neg _ hx255]
    have hceil : ⌈x * 255⌉ ≤ 0 := Int.ceil_le.mpr (by push_cast; linarith)
    rw [min_eq_right (le_trans hceil (by norm_num)), max_eq_left hceil]
    rw [max_eq_left (le_of_lt hx), min_eq_right (by norm_num : (0:ℝ) ≤ 1)]
    rw [zero_mul, truncToZero_nonneg _ le_rfl, Int.floor_zero]
  · rcases le_or_lt x 1 with h1 | h1
    · have hmul : (0:ℝ) ≤ x * 255 := by nlinarith
      rw [truncToZero_nonneg _ hmul]
      have hf0 : (0:ℤ) ≤ ⌊x * 255⌋ := Int.floor_nonneg.mpr hmul
      have hf255 : ⌊x * 255⌋ ≤ 255 := by
        have : x * 255 ≤ 255 := by nlinarith
        calc ⌊x * 255⌋ ≤ ⌊(255:ℝ)⌋ := Int.floor_le_floor this
          _ = 255 := by norm_num
      rw [min_eq_right hf255, max_eq_right hf0]
      rw [max_eq_right hx, min_eq_right h1, truncToZero_nonneg _ hmul]
    · have hge : (255:ℝ) ≤ x * 255 := by nlinarith
      have hmul : (0:ℝ) ≤ x * 255 := by nlinarith
      rw [truncToZero_nonneg _ hmul]
      have hf : (255:ℤ) ≤ ⌊x * 255⌋ := Int.le_floor.mpr (by push_cast; linarith)
      rw [min_eq_left hf, max_eq_right (by norm_num : (0:ℤ) ≤ 255)]
      rw [max_eq_right hx, min_eq_left (le_of_lt h1), one_mul]
      rw [truncToZero_nonneg _ (by norm_num : (0:ℝ) ≤ 255)]
      norm_num

/-- A channel holding exactly `k/255` casts back to the byte `k` for
`k ≤ 255`. -/
theorem quant_k (k : ℕ) (hk : k ≤ 255) : castF32U8 (((k:ℝ) / 255) * 255) = (k : ℤ) := by
  unfold castF32U8
  have hmul : ((k:ℝ) / 255) * 255 = (k:ℝ) := div_mul_cancel₀ _ (by norm_num)
  rw [hmul, truncToZero_nonneg _ (by positivity), Int.floor_natCast]
  rw [min_eq_right (by exact_mod_cast hk), max_eq_right (by positivity)]

/-- C9: quantization of a channel equals `clamp01(c) · 255` truncated
toward zero, and a gray pixel set to `k/255` quantizes to `(k,k,k)` for
every `k ≤ 255`. -/
theorem spec_C9 :
    (∀ x : ℝ, castF32U8 (x * 255) = specQuantChannel x)
    ∧ ∀ k : ℕ, k ≤ 255 →
        Color.to_bytes ⟨(k : ℝ) / 255, (k : ℝ) / 255, (k : ℝ) / 255⟩ =
          ((k : ℤ), (k : ℤ), (k : ℤ)) := by
  refine ⟨cast_eq_quant, ?_⟩
  intro k hk
  unfold Color.to_bytes
  dsimp only
  rw [quant_k k hk]

/-- Witness for C9 at `x = 1/2` and `k = 128`. -/
theorem spec_C9_witness :
    castF32U8 ((1/2 : ℝ) * 255) = specQuantChannel (1/2)
    ∧ ((128:ℕ) ≤ 255)
    ∧ Color.to_bytes ⟨((128:ℕ) : ℝ) / 255, ((128:ℕ) : ℝ) / 255, ((128:ℕ) : ℝ) / 255⟩ =
        (((128:ℕ) : ℤ), ((128:ℕ) : ℤ), ((128:ℕ) : ℤ)) :=
  ⟨(spec_C9).1 (1/2), by norm_num, (spec_C9).2 128 (by norm_num)⟩

end Walnut
